import Mathlib

/-!
Shallow embedding of `archive.py` (timschumi/reddit-archiver).

The Python script archives Reddit submissions and comments into a
relational store.  We model the store as explicit lists of rows, the
process-global identifier caches (`get_subreddit_id.cache`,
`get_redditor_id.cache`) as components of an `Engine` state, and the
remote API objects (praw models) as plain records.  Python strings are
modelled as `List Char` so that every operation reduces in the kernel.
`db().commit()` and cursor plumbing are effect-free in the model; each
SQL statement becomes an explicit query or update on the row lists.
Functions that can raise (missing `fetchone` row, failing parent fetch,
a non-terminating walk) return `Option`.
-/

namespace RedditArchiver

/-- Python strings, modelled as lists of characters. -/
abbrev Str := List Char

/-- Coerce a Lean string literal into the model's string type. -/
def strOf (s : String) : Str := s.data

/-- Python `s.startswith(pre)` on the model's strings. -/
def startswith (s pre : Str) : Bool := List.isPrefixOf pre s

/-- Value of one base-36 digit, matching the alphabet accepted by
`base36.loads` (digits, then letters, case-insensitive). -/
def base36_digit (c : Char) : Nat :=
  if c.isDigit then c.toNat - '0'.toNat
  else if 'a' ≤ c && c ≤ 'z' then c.toNat - 'a'.toNat + 10
  else if 'A' ≤ c && c ≤ 'Z' then c.toNat - 'A'.toNat + 10
  else 0

/-- `base36.loads`: decode a base-36 textual id to an integer. -/
def base36_loads (s : Str) : Nat :=
  List.foldl (fun acc c => acc * 36 + base36_digit c) 0 s

/-- Python truthiness of an optional string (as in
`True if submission.distinguished else False`): `None` and the empty
string are falsy. -/
def py_truthy_str (o : Option Str) : Bool :=
  match o with
  | none => false
  | some s => !s.isEmpty

/-- A `praw.models.Subreddit`: the fields the script reads. -/
structure Subreddit where
  id : Str
  display_name : Str
deriving DecidableEq, Repr

/-- The outcome of looking at a `praw.models.Redditor` argument, as the
four code paths of `get_redditor_id` distinguish them: the reference is
`None`; the object exists but exposes no `id` attribute; touching the
object raises `prawcore.exceptions.NotFound`; or an id (and name) is
available. -/
inductive RedditorInput where
  | nullRef : RedditorInput
  | noId : RedditorInput
  | notFound : RedditorInput
  | present (id : Str) (name : Str) : RedditorInput
deriving DecidableEq, Repr

/-- A `praw.models.Comment`: the fields the script reads.  `parent_id`
is the raw typed reference (`t1_xxx` for a comment parent, `t3_xxx` for
the submission). `submission_id` stands for `comment.submission.id`. -/
structure CommentObj where
  id : Str
  submission_id : Str
  parent_id : Str
  author : RedditorInput
  score : Int
  body : Option Str
  created_utc : Int
  distinguished : Option Str
  stickied : Bool
  banned_by : Option Str
deriving DecidableEq, Repr

/-- A praw `CommentForest` for one submission: the comments already
materialised plus the pending `MoreComments` placeholders, each of which
expands to a batch of comments. -/
structure CommentForest where
  resolved : List CommentObj
  more : List (List CommentObj)
deriving DecidableEq, Repr

/-- A `praw.models.Submission`: the fields the script reads.
`num_comments` is the API-reported comment total; `comments` is the
lazily-paginated comment forest. -/
structure SubmissionObj where
  id : Str
  subreddit : Subreddit
  title : Str
  author : RedditorInput
  score : Int
  is_self : Bool
  selftext : Str
  url : Str
  created_utc : Int
  distinguished : Option Str
  stickied : Bool
  removed_by_category : Option Str
  num_comments : Nat
  comments : CommentForest
deriving DecidableEq, Repr

/-- The remote API as a lookup table: `comment.submission` resolves a
submission id, `comment.parent()` resolves a comment id. -/
structure RedditAPI where
  submissions : List (Str × SubmissionObj)
  comments : List (Str × CommentObj)
deriving DecidableEq, Repr

/-- Resolve `comment.submission` against the API. -/
def RedditAPI.findSubmission (api : RedditAPI) (k : Str) : Option SubmissionObj :=
  (api.submissions.find? (fun p => p.1 == k)).map (fun p => p.2)

/-- Resolve `comment.parent()` (by the base-36 id of the parent)
against the API. -/
def RedditAPI.findComment (api : RedditAPI) (k : Str) : Option CommentObj :=
  (api.comments.find? (fun p => p.1 == k)).map (fun p => p.2)

/-- A row of the `submission` table. -/
structure SubmissionRow where
  id : Nat
  subreddit : Nat
  title : Str
  author : Option Nat
  score : Int
  content : Str
  timestamp : Int
  distinguished : Bool
  stickied : Bool
  removed : Bool
  hidden_comments : Int
deriving DecidableEq, Repr

/-- A row of the `comment` table. -/
structure CommentRow where
  id : Nat
  submission : Nat
  parent : Option Nat
  author : Option Nat
  score : Int
  content : Option Str
  timestamp : Int
  distinguished : Bool
  stickied : Bool
  removed : Bool
deriving DecidableEq, Repr

/-- The relational store: one list of rows per table created by
`create_database_layout`.  `redditor` and `subreddit` rows are
(id, name) pairs; `saved_submission` / `saved_comment` rows are
(owner, target) pairs. -/
structure Store where
  redditor : List (Nat × Str)
  subreddit : List (Nat × Str)
  submission : List SubmissionRow
  comment : List CommentRow
  saved_submission : List (Nat × Nat)
  saved_comment : List (Nat × Nat)
deriving DecidableEq, Repr

/-- `SELECT COUNT(1) FROM subreddit WHERE id = %s` tested against 0. -/
def Store.subredditExists (st : Store) (i : Nat) : Bool :=
  st.subreddit.any (fun p => p.1 == i)

/-- `SELECT COUNT(1) FROM redditor WHERE id = %s` tested against 0. -/
def Store.redditorExists (st : Store) (i : Nat) : Bool :=
  st.redditor.any (fun p => p.1 == i)

/-- `SELECT COUNT(1) FROM submission WHERE id = %s` tested against 0. -/
def Store.submissionExists (st : Store) (i : Nat) : Bool :=
  st.submission.any (fun r => r.id == i)

/-- `SELECT COUNT(1) FROM comment WHERE id = %s` tested against 0. -/
def Store.commentExists (st : Store) (i : Nat) : Bool :=
  st.comment.any (fun r => r.id == i)

/-- The empty store, as `create_database_layout` leaves a fresh database. -/
def emptyStore : Store := ⟨[], [], [], [], [], []⟩

/-- Process state: the store plus the two process-global identifier
caches (`get_subreddit_id.cache` and `get_redditor_id.cache`). -/
structure Engine where
  store : Store
  subredditCache : List Nat
  redditorCache : List Nat
deriving DecidableEq, Repr

/-- Fresh process over a fresh database: empty store, empty caches. -/
def engine0 : Engine := ⟨emptyStore, [], []⟩

/-- `get_subreddit_id`: decode the id; consult the cache, then the
store; insert a `(id, name)` subreddit row on first sight.  Always
returns the decoded id. -/
def get_subreddit_id (sub : Subreddit) (e : Engine) : Nat × Engine :=
  let numeric_id := base36_loads sub.id
  if e.subredditCache.contains numeric_id then
    (numeric_id, e)
  else if e.store.subredditExists numeric_id then
    (numeric_id, { e with subredditCache := numeric_id :: e.subredditCache })
  else
    (numeric_id,
      { e with
        store := { e.store with
          subreddit := e.store.subreddit ++ [(numeric_id, sub.display_name)] },
        subredditCache := numeric_id :: e.subredditCache })

/-- `get_redditor_id`: `None`, a missing `id` attribute, or a
`NotFound` from the API yield `none`; otherwise decode the id, consult
the cache, then the store, inserting a `(id, name)` redditor row on
first sight. -/
def get_redditor_id (r : RedditorInput) (e : Engine) : Option Nat × Engine :=
  match r with
  | .nullRef => (none, e)
  | .noId => (none, e)
  | .notFound => (none, e)
  | .present rid name =>
    let numeric_id := base36_loads rid
    if e.redditorCache.contains numeric_id then
      (some numeric_id, e)
    else if e.store.redditorExists numeric_id then
      (some numeric_id, { e with redditorCache := numeric_id :: e.redditorCache })
    else
      (some numeric_id,
        { e with
          store := { e.store with
            redditor := e.store.redditor ++ [(numeric_id, name)] },
          redditorCache := numeric_id :: e.redditorCache })

/-- `insert_submission`: skip if a row with the decoded id exists;
otherwise resolve the subreddit and author ids (in the Python
argument-evaluation order) and insert the full row with
`hidden_comments` at its SQL default 0. -/
def insert_submission (submission : SubmissionObj) (e : Engine) : Engine :=
  let submission_id := base36_loads submission.id
  if e.store.submissionExists submission_id then e
  else
    let p1 := get_subreddit_id submission.subreddit e
    let p2 := get_redditor_id submission.author p1.2
    let row : SubmissionRow :=
      { id := submission_id
        subreddit := p1.1
        title := submission.title
        author := p2.1
        score := submission.score
        content := if submission.is_self then submission.selftext else submission.url
        timestamp := submission.created_utc
        distinguished := py_truthy_str submission.distinguished
        stickied := submission.stickied
        removed := submission.removed_by_category.isSome
        hidden_comments := 0 }
    { p2.2 with store := { p2.2.store with
        submission := p2.2.store.submission ++ [row] } }

/-- The comment row built by `insert_comment_unchecked` from a comment
object and its resolved author id. -/
def commentRowOf (comment : CommentObj) (author : Option Nat) : CommentRow :=
  { id := base36_loads comment.id
    submission := base36_loads comment.submission_id
    parent :=
      if startswith comment.parent_id (strOf "t1_") then
        some (base36_loads (comment.parent_id.drop 3))
      else none
    author := author
    score := comment.score
    content := comment.body
    timestamp := comment.created_utc
    distinguished := py_truthy_str comment.distinguished
    stickied := comment.stickied
    removed := comment.banned_by.isSome || comment.body.isNone }

/-- `insert_comment_unchecked`: resolve the author and insert the
comment row without probing for an existing row. -/
def insert_comment_unchecked (comment : CommentObj) (e : Engine) : Engine :=
  let p := get_redditor_id comment.author e
  { p.2 with store := { p.2.store with
      comment := p.2.store.comment ++ [commentRowOf comment p.1] } }

/-- `insert_comment`: skip if a row with the decoded id exists,
otherwise defer to `insert_comment_unchecked`. -/
def insert_comment (comment : CommentObj) (e : Engine) : Engine :=
  if e.store.commentExists (base36_loads comment.id) then e
  else insert_comment_unchecked comment e

/-- One `comment_tree.replace_more()` call with praw's default limit of
32: expand up to 32 pending placeholders into the tree and return the
list of placeholders that remain (the loop in `process_submission`
terminates when that list is empty). -/
def CommentForest.replace_more (f : CommentForest) : List (List CommentObj) × CommentForest :=
  let remaining := f.more.drop 32
  (remaining, ⟨f.resolved ++ (f.more.take 32).flatten, remaining⟩)

/-- Iterate `replace_more` at most `fuel` times, stopping as soon as it
reports an empty remaining-placeholder list.  Each call consumes at
least one placeholder, so `fuel = f.more.length` always suffices. -/
def replaceMoreGo : Nat → CommentForest → CommentForest
  | 0, f => f
  | fuel + 1, f =>
    if f.more = [] then f
    else replaceMoreGo fuel (f.replace_more).2

/-- The `while len(comment_tree.replace_more()) > 0: pass` loop:
repeatedly expand placeholders until `replace_more` reports none
remaining. -/
def replaceMoreLoop (f : CommentForest) : CommentForest :=
  replaceMoreGo f.more.length f

/-- `comment_tree.list()`: the flattened list of materialised comments. -/
def CommentForest.list (f : CommentForest) : List CommentObj := f.resolved

/-- `UPDATE submission SET hidden_comments = %s WHERE id = %s`. -/
def updateHidden (st : Store) (v : Int) (sid : Nat) : Store :=
  let upd := fun (r : SubmissionRow) =>
    if r.id == sid then { r with hidden_comments := v } else r
  { st with submission := st.submission.map upd }

/-- The rehydration block of `process_submission`: expand the comment
forest to exhaustion, precompute the set of already-stored comment ids
for this submission, insert every flattened comment whose id is not in
that set via `insert_comment_unchecked`, and store
`num_comments - len(comment_tree.list())` as the new hidden count. -/
def rehydrate (submission : SubmissionObj) (sid : Nat) (e : Engine) : Engine :=
  let comment_tree := replaceMoreLoop submission.comments
  let existing_comments :=
    (e.store.comment.filter (fun r => r.submission == sid)).map (fun r => r.id)
  let e2 := comment_tree.list.foldl
    (fun acc c =>
      if existing_comments.contains (base36_loads c.id) then acc
      else insert_comment_unchecked c acc) e
  let newHidden : Int :=
    (submission.num_comments : Int) - (comment_tree.list.length : Int)
  { e2 with store := updateHidden e2.store newHidden sid }

/-- The saved-submission block of `process_submission`: insert the
(owner, submission) association unless it already exists. -/
def record_saved_submission (owner sid : Nat) (e : Engine) : Engine :=
  if e.store.saved_submission.any (fun p => p.1 == owner && p.2 == sid) then e
  else { e with store := { e.store with
    saved_submission := e.store.saved_submission ++ [(owner, sid)] } }

/-- The saved-comment block of `process_comment`: insert the
(owner, comment) association unless it already exists. -/
def record_saved_comment (owner cid : Nat) (e : Engine) : Engine :=
  if e.store.saved_comment.any (fun p => p.1 == owner && p.2 == cid) then e
  else { e with store := { e.store with
    saved_comment := e.store.saved_comment ++ [(owner, cid)] } }

/-- `process_submission`: upsert the submission row, then, when the
stored plus hidden comment count falls short of the API total, run the
rehydration block.  Finally, record the saved-submission association
when `saved_by` is truthy.  Returns `none` where the Python would raise
(submission row missing after the upsert, which cannot happen). -/
def process_submission (submission : SubmissionObj) (saved_by : Option Nat) (e : Engine) :
    Option Engine :=
  let e := insert_submission submission e
  let sid := base36_loads submission.id
  let stored_comments := (e.store.comment.filter (fun r => r.submission == sid)).length
  match e.store.submission.find? (fun r => r.id == sid) with
  | none => none
  | some row =>
    let e :=
      if (stored_comments : Int) + row.hidden_comments < (submission.num_comments : Int) then
        rehydrate submission sid e
      else e
    match saved_by with
    | none => some e
    | some owner =>
      if owner != 0 then some (record_saved_submission owner sid e)
      else some e

/-- The `while True` chain walk of `process_comment`: append the current
comment to the chain; stop when its parent reference names the
submission (`t3_`) or an already-persisted comment; otherwise fetch the
parent from the API and continue.  `fuel` bounds the walk; `none`
models a walk the Python cannot finish (endless parent chain or a
parent fetch that raises). -/
def chainWalk (api : RedditAPI) (st : Store) :
    Nat → CommentObj → List CommentObj → Option (List CommentObj)
  | fuel, comment, chain =>
    let chain := chain ++ [comment]
    let parent_comment_id :=
      if startswith comment.parent_id (strOf "t1_") then
        some (base36_loads (comment.parent_id.drop 3))
      else none
    match parent_comment_id with
    | none => some chain
    | some pid =>
      if st.commentExists pid then some chain
      else
        match fuel with
        | 0 => none
        | fuel' + 1 =>
          match api.findComment (comment.parent_id.drop 3) with
          | none => none
          | some parent => chainWalk api st fuel' parent chain

/-- `process_comment`: archive the comment's submission first, walk the
ancestor chain against the post-submission store, insert the chain in
root-to-leaf order with the checked `insert_comment`, then record the
saved-comment association when `saved_by` is truthy.  After the Python
`for comment in reversed(chain)` loop the loop variable holds the last
element of `reversed(chain)`, so the association targets that
comment's id. -/
def process_comment (api : RedditAPI) (fuel : Nat) (comment : CommentObj)
    (saved_by : Option Nat) (e : Engine) : Option Engine :=
  match api.findSubmission comment.submission_id with
  | none => none
  | some submission =>
    match process_submission submission none e with
    | none => none
    | some e =>
      match chainWalk api e.store fuel comment [] with
      | none => none
      | some chain =>
        let e := chain.reverse.foldl (fun acc c => insert_comment c acc) e
        let last_comment := chain.reverse.getLastD comment
        match saved_by with
        | none => some e
        | some owner =>
          if owner != 0 then
            some (record_saved_comment owner (base36_loads last_comment.id) e)
          else some e

/-- Sample subreddit used by the concrete scenarios. -/
def srX : Subreddit := ⟨strOf "s", strOf "sr"⟩

/-- Helper: a top-level comment object (parent is the submission). -/
def mkTopComment (cid sid : Str) : CommentObj :=
  { id := cid
    submission_id := sid
    parent_id := strOf "t3_" ++ sid
    author := .nullRef
    score := 1
    body := some (strOf "text")
    created_utc := 5
    distinguished := none
    stickied := false
    banned_by := none }

/-- Helper: a reply comment object (parent is another comment). -/
def mkReplyComment (cid sid pid : Str) : CommentObj :=
  { id := cid
    submission_id := sid
    parent_id := strOf "t1_" ++ pid
    author := .nullRef
    score := 1
    body := some (strOf "text")
    created_utc := 5
    distinguished := none
    stickied := false
    banned_by := none }

/-- Helper: a submission object over `srX` with a given comment forest
and reported total. -/
def mkSubmission (sid : Str) (total : Nat) (forest : CommentForest) : SubmissionObj :=
  { id := sid
    subreddit := srX
    title := strOf "t"
    author := .nullRef
    score := 3
    is_self := true
    selftext := strOf "body"
    url := strOf "u"
    created_utc := 4
    distinguished := none
    stickied := false
    removed_by_category := none
    num_comments := total
    comments := forest }

/-- Counterexample submission for the hidden-count claim: the API
reports 1 comment but the flattened tree holds 2, so the stored hidden
count goes negative. -/
def subNeg : SubmissionObj :=
  mkSubmission (strOf "b") 1
    ⟨[mkTopComment (strOf "c") (strOf "b"), mkTopComment (strOf "d") (strOf "b")], []⟩

/-- Submission `a` (decoded id 10) with an empty, fully-expanded
comment forest and a reported total of 0. -/
def subA : SubmissionObj := mkSubmission (strOf "a") 0 ⟨[], []⟩

/-- The stored row for submission `a`, as `insert_submission` writes it. -/
def rowA : SubmissionRow :=
  { id := 10, subreddit := 28, title := strOf "t", author := none, score := 3,
    content := strOf "body", timestamp := 4, distinguished := false, stickied := false,
    removed := false, hidden_comments := 0 }

/-- Depth-1 comment of the backfill scenario (child of submission `a`). -/
def k1 : CommentObj := mkTopComment (strOf "h") (strOf "a")

/-- Depth-2 comment of the backfill scenario. -/
def k2 : CommentObj := mkReplyComment (strOf "i") (strOf "a") (strOf "h")

/-- Depth-3 comment of the backfill scenario. -/
def k3 : CommentObj := mkReplyComment (strOf "j") (strOf "a") (strOf "i")

/-- Depth-4 comment of the backfill scenario. -/
def k4 : CommentObj := mkReplyComment (strOf "k") (strOf "a") (strOf "j")

/-- Depth-5 comment of the backfill scenario: the one discovered out of
order. -/
def k5 : CommentObj := mkReplyComment (strOf "l") (strOf "a") (strOf "k")

/-- The API for the backfill scenario: submission `a` plus the four
ancestors of `k5` reachable through `parent()`. -/
def apiC4 : RedditAPI :=
  { submissions := [(strOf "a", subA)],
    comments := [(strOf "h", k1), (strOf "i", k2), (strOf "j", k3), (strOf "k", k4)] }

/-- Start state of the backfill scenario: only the root post persisted,
no comments. -/
def engC4 : Engine := ⟨{ emptyStore with submission := [rowA] }, [], []⟩

/-- First stored comment of the rehydration scenario (id 14). -/
def c1o : CommentObj := mkTopComment (strOf "e") (strOf "a")

/-- Second comment of the rehydration scenario (id 15), not yet stored. -/
def c2o : CommentObj := mkTopComment (strOf "f") (strOf "a")

/-- Third comment of the rehydration scenario (id 16), not yet stored. -/
def c3o : CommentObj := mkReplyComment (strOf "g") (strOf "a") (strOf "e")

/-- The rehydration-scenario submission: reported total 3, flattened
list of the three comments above, no placeholders. -/
def subC6 : SubmissionObj := mkSubmission (strOf "a") 3 ⟨[c1o, c2o, c3o], []⟩

/-- Start state of the rehydration scenario: post `a` stored with
hidden count 0 and exactly one stored comment (id 14). -/
def engC6 : Engine :=
  ⟨{ emptyStore with submission := [rowA], comment := [commentRowOf c1o none] }, [], []⟩

/-- Number of stored submission rows carrying a given id. -/
def submissionRowCount (st : Store) (i : Nat) : Nat :=
  (st.submission.filter (fun r => r.id == i)).length

/-- Number of stored comment rows carrying a given id. -/
def commentRowCount (st : Store) (i : Nat) : Nat :=
  (st.comment.filter (fun r => r.id == i)).length

/-- An author input is absent-or-not-found when `get_redditor_id` would
take one of its three early-return paths. -/
def authorAbsent (r : RedditorInput) : Prop :=
  r = RedditorInput.nullRef ∨ r = RedditorInput.noId ∨ r = RedditorInput.notFound

/-- Drop both in-process identifier caches, as a fresh run (or an
explicit clear) would. -/
def clearCaches (e : Engine) : Engine := { e with subredditCache := [], redditorCache := [] }

/-- Cache soundness: every cached id has a stored row.  This holds for
the empty caches and is preserved by every reconciler call. -/
def cacheInv (e : Engine) : Prop :=
  (∀ i ∈ e.subredditCache, e.store.subredditExists i = true)
  ∧ (∀ i ∈ e.redditorCache, e.store.redditorExists i = true)

/-- One Entity Reconciler invocation: resolve a container or an author. -/
inductive ResolveCall where
  | container (s : Subreddit) : ResolveCall
  | author (r : RedditorInput) : ResolveCall
deriving DecidableEq, Repr

/-- Run one reconciler call, normalising both return types to
`Option Nat`. -/
def runResolve (call : ResolveCall) (e : Engine) : Option Nat × Engine :=
  match call with
  | .container s =>
    let p := get_subreddit_id s e
    (some p.1, p.2)
  | .author r => get_redditor_id r e

/-- Run a sequence of reconciler calls, collecting the returned ids. -/
def runResolves : List ResolveCall → Engine → List (Option Nat) × Engine
  | [], e => ([], e)
  | c :: cs, e =>
    let p := runResolve c e
    let q := runResolves cs p.2
    (p.1 :: q.1, q.2)

/-- All comments reachable in a forest: the resolved ones plus every
pending placeholder batch. -/
def forestComments (f : CommentForest) : List CommentObj :=
  f.resolved ++ f.more.flatten

/-- No orphan comments: every stored comment row references a stored
submission row. -/
def noOrphanComments (st : Store) : Prop :=
  ∀ r ∈ st.comment, st.submissionExists r.submission = true

/-! Theorems about the embedded program. -/

/-! Effect lemmas: which tables each operation can touch. -/

theorem get_subreddit_id_store (s : Subreddit) (e : Engine) :
    ((get_subreddit_id s e).2.store.submission = e.store.submission)
    ∧ ((get_subreddit_id s e).2.store.comment = e.store.comment)
    ∧ ((get_subreddit_id s e).2.store.redditor = e.store.redditor)
    ∧ ((get_subreddit_id s e).2.store.saved_submission = e.store.saved_submission)
    ∧ ((get_subreddit_id s e).2.store.saved_comment = e.store.saved_comment) := by
  unfold get_subreddit_id
  dsimp only
  split_ifs <;> simp

theorem get_redditor_id_store (r : RedditorInput) (e : Engine) :
    ((get_redditor_id r e).2.store.submission = e.store.submission)
    ∧ ((get_redditor_id r e).2.store.comment = e.store.comment)
    ∧ ((get_redditor_id r e).2.store.subreddit = e.store.subreddit)
    ∧ ((get_redditor_id r e).2.store.saved_submission = e.store.saved_submission)
    ∧ ((get_redditor_id r e).2.store.saved_comment = e.store.saved_comment) := by
  unfold get_redditor_id
  cases r <;> dsimp only <;> try exact ⟨rfl, rfl, rfl, rfl, rfl⟩
  split_ifs <;> simp

theorem insert_comment_unchecked_store (c : CommentObj) (e : Engine) :
    ((insert_comment_unchecked c e).store.submission = e.store.submission)
    ∧ ((insert_comment_unchecked c e).store.subreddit = e.store.subreddit)
    ∧ ((insert_comment_unchecked c e).store.saved_submission = e.store.saved_submission)
    ∧ ((insert_comment_unchecked c e).store.saved_comment = e.store.saved_comment)
    ∧ ((insert_comment_unchecked c e).store.comment
        = e.store.comment ++ [commentRowOf c (get_redditor_id c.author e).1]) := by
  unfold insert_comment_unchecked
  dsimp only
  have h := get_redditor_id_store c.author e
  exact ⟨h.1, h.2.2.1, h.2.2.2.1, h.2.2.2.2, by rw [h.2.1]⟩

theorem insert_submission_skip (submission : SubmissionObj) (e : Engine)
    (h : e.store.submissionExists (base36_loads submission.id) = true) :
    insert_submission submission e = e := by
  unfold insert_submission
  simp [h]

theorem insert_comment_skip (comment : CommentObj) (e : Engine)
    (h : e.store.commentExists (base36_loads comment.id) = true) :
    insert_comment comment e = e := by
  unfold insert_comment
  simp [h]

theorem submissionExists_iff_rowCount (st : Store) (i : Nat) :
    st.submissionExists i = true ↔ submissionRowCount st i ≠ 0 := by
  simp [Store.submissionExists, submissionRowCount, List.any_eq_true, List.length_eq_zero]

theorem commentExists_iff_rowCount (st : Store) (i : Nat) :
    st.commentExists i = true ↔ commentRowCount st i ≠ 0 := by
  simp [Store.commentExists, commentRowCount, List.any_eq_true, List.length_eq_zero]

theorem insert_submission_rowCount (submission : SubmissionObj) (e : Engine)
    (h : submissionRowCount e.store (base36_loads submission.id) ≤ 1) :
    submissionRowCount (insert_submission submission e).store (base36_loads submission.id) = 1 := by
  by_cases hex : e.store.submissionExists (base36_loads submission.id) = true
  · rw [insert_submission_skip submission e hex]
    have := (submissionExists_iff_rowCount e.store (base36_loads submission.id)).mp hex
    omega
  · have hcnt : submissionRowCount e.store (base36_loads submission.id) = 0 := by
      by_contra hne
      exact hex ((submissionExists_iff_rowCount e.store (base36_loads submission.id)).mpr hne)
    unfold insert_submission
    rw [if_neg hex]
    dsimp only
    unfold submissionRowCount at hcnt ⊢
    rw [(get_redditor_id_store _ _).1, (get_subreddit_id_store _ _).1]
    simp only [List.filter_append, List.length_append, hcnt]
    simp

theorem insert_comment_rowCount (comment : CommentObj) (e : Engine)
    (h : commentRowCount e.store (base36_loads comment.id) ≤ 1) :
    commentRowCount (insert_comment comment e).store (base36_loads comment.id) = 1 := by
  by_cases hex : e.store.commentExists (base36_loads comment.id) = true
  · unfold insert_comment
    rw [if_pos hex]
    have := (commentExists_iff_rowCount e.store (base36_loads comment.id)).mp hex
    omega
  · have hcnt : commentRowCount e.store (base36_loads comment.id) = 0 := by
      by_contra hne
      exact hex ((commentExists_iff_rowCount e.store (base36_loads comment.id)).mpr hne)
    unfold insert_comment
    rw [if_neg hex]
    unfold commentRowCount at hcnt ⊢
    rw [(insert_comment_unchecked_store comment e).2.2.2.2]
    simp only [List.filter_append, List.length_append, hcnt]
    simp [commentRowOf]

/-- C3: upserting the same submission (and the same comment) twice
leaves exactly one stored row for the id, and the second call is a
no-op on the whole engine state. -/
theorem upsert_twice_idempotent (submission : SubmissionObj) (comment : CommentObj)
    (e1 e2 : Engine)
    (h1 : submissionRowCount e1.store (base36_loads submission.id) ≤ 1)
    (h2 : commentRowCount e2.store (base36_loads comment.id) ≤ 1) :
    submissionRowCount (insert_submission submission e1).store (base36_loads submission.id) = 1
    ∧ insert_submission submission (insert_submission submission e1)
        = insert_submission submission e1
    ∧ commentRowCount (insert_comment comment e2).store (base36_loads comment.id) = 1
    ∧ insert_comment comment (insert_comment comment e2) = insert_comment comment e2 := by
  have hs := insert_submission_rowCount submission e1 h1
  have hc := insert_comment_rowCount comment e2 h2
  refine ⟨hs, ?_, hc, ?_⟩
  · exact insert_submission_skip submission _
      ((submissionExists_iff_rowCount _ _).mpr (by omega))
  · exact insert_comment_skip comment _ ((commentExists_iff_rowCount _ _).mpr (by omega))

/-- C3, witness: upserting submission `a` and comment `e` twice over
concrete stores that satisfy the at-most-one-row premise. -/
theorem upsert_twice_idempotent_witness :
    submissionRowCount engine0.store (base36_loads subA.id) ≤ 1
    ∧ commentRowCount engC6.store (base36_loads c1o.id) ≤ 1
    ∧ (submissionRowCount (insert_submission subA engine0).store (base36_loads subA.id) = 1
       ∧ insert_submission subA (insert_submission subA engine0) = insert_submission subA engine0
       ∧ commentRowCount (insert_comment c1o engC6).store (base36_loads c1o.id) = 1
       ∧ insert_comment c1o (insert_comment c1o engC6) = insert_comment c1o engC6) :=
  ⟨by decide, by decide, upsert_twice_idempotent subA c1o engine0 engC6 (by decide) (by decide)⟩

/-- C1, counterexample: the API reports 1 comment for `subNeg` but its
flattened tree has 2, so rehydration stores `1 - 2 = -1` as the
hidden-comment count — a negative value, not zero as the claim states. -/
theorem hidden_count_not_clamped :
    (process_submission subNeg none engine0).map
        (fun e => e.store.submission.map (fun r => (r.id, r.hidden_comments)))
      = some [(11, -1)] ∧ ((-1 : Int) ≠ 0) := by decide

/-- C2, counterexample: calling the comment upsert `insert_comment`
directly on an empty store inserts the comment row without persisting
any submission, so the upsert itself does not trigger post persistence
and the no-orphan invariant fails at this call. -/
theorem insert_comment_no_post_persistence :
    ((insert_comment (mkTopComment (strOf "c") (strOf "b")) engine0).store.comment.map
        (fun r => r.id) = [12])
    ∧ (insert_comment (mkTopComment (strOf "c") (strOf "b")) engine0).store.submission = []
      := by decide

/-- C4: for the depth-5 comment `k5` whose root post is the only
persisted row, backfill walks the parent chain and persists exactly the
five missing comments in root-to-leaf order (ids 17..21), and a second
backfill run over the resulting state is the identity (zero additional
rows). -/
theorem chain_backfill_five_deep :
    engC4.store.comment = []
    ∧ ((process_comment apiC4 10 k5 none engC4).map
         (fun e => e.store.comment.map (fun r => r.id)) = some [17, 18, 19, 20, 21])
    ∧ (process_comment apiC4 10 k5 none engC4).bind (process_comment apiC4 10 k5 none)
        = process_comment apiC4 10 k5 none engC4 := by decide

/-- C6: post `a` has reported total 3, one stored comment (id 14) and
hidden count 0; the API returns 3 flattened comments including the
stored one.  Rehydration inserts exactly the two missing rows (ids 15
and 16) and stores hidden count `3 - 3 = 0`. -/
theorem rehydration_scenario_two_inserts :
    engC6.store.comment.map (fun r => r.id) = [14]
    ∧ (process_submission subC6 none engC6).map
        (fun e => (e.store.comment.map (fun r => r.id),
                   e.store.submission.map (fun r => (r.id, r.hidden_comments))))
      = some ([14, 15, 16], [(10, 0)]) := by decide

/-- C7: re-upserting a submission whose id already has a stored row
returns without modifying anything: the whole engine state, in
particular every field of the stored row and its score, is unchanged. -/
theorem insert_submission_write_once (submission : SubmissionObj) (e : Engine)
    (h : e.store.submissionExists (base36_loads submission.id) = true) :
    insert_submission submission e = e :=
  insert_submission_skip submission e h

/-- C7, witness: submission `a` is stored with score 3; re-upserting it
with upstream score 99 leaves the store (and the stored score)
untouched. -/
theorem insert_submission_write_once_witness :
    engC4.store.submissionExists (base36_loads (mkSubmission (strOf "a") 0 ⟨[], []⟩).id) = true
    ∧ insert_submission { mkSubmission (strOf "a") 0 ⟨[], []⟩ with score := 99 } engC4 = engC4
    ∧ engC4.store.submission.map (fun r => r.score) = [3] :=
  ⟨by decide,
   insert_submission_write_once { mkSubmission (strOf "a") 0 ⟨[], []⟩ with score := 99 } engC4
     (by decide),
   by decide⟩

/-- C9: `get_redditor_id` returns `none` exactly on an absent or
not-found author, and then leaves the engine untouched; on a present
author it returns the decoded id, leaves the store untouched when the
row exists, and appends the `(id, name)` redditor row on first sight.
The cache premise says every cached id has a stored row, which holds in
every reachable state. -/
theorem resolve_author_contract (r : RedditorInput) (e : Engine)
    (hinv : ∀ i ∈ e.redditorCache, e.store.redditorExists i = true) :
    ((get_redditor_id r e).1 = none ↔ authorAbsent r)
    ∧ (authorAbsent r → (get_redditor_id r e).2 = e)
    ∧ (∀ rid name, r = RedditorInput.present rid name →
        (get_redditor_id r e).1 = some (base36_loads rid)
        ∧ (e.store.redditorExists (base36_loads rid) = true →
            (get_redditor_id r e).2.store = e.store)
        ∧ (e.store.redditorExists (base36_loads rid) = false →
            (get_redditor_id r e).2.store = { e.store with
              redditor := e.store.redditor ++ [(base36_loads rid, name)] })) := by
  cases r with
  | nullRef => simp [get_redditor_id, authorAbsent]
  | noId => simp [get_redditor_id, authorAbsent]
  | notFound => simp [get_redditor_id, authorAbsent]
  | present rid name =>
    refine ⟨?_, ?_, ?_⟩
    · constructor
      · intro h
        unfold get_redditor_id at h
        dsimp only at h
        split_ifs at h
      · intro h
        simp [authorAbsent] at h
    · intro h
      simp [authorAbsent] at h
    · intro rid' name' heq
      injection heq with h1 h2
      subst h1
      subst h2
      unfold get_redditor_id
      dsimp only
      refine ⟨?_, ?_, ?_⟩
      · split_ifs <;> rfl
      · intro hex
        split_ifs with hc
        · rfl
        · rfl
      · intro hex
        split_ifs with hc hx
        · have hm : base36_loads rid ∈ e.redditorCache := by simpa using hc
          rw [hinv _ hm] at hex
          exact absurd hex (by simp)
        · rw [hx] at hex
          exact absurd hex (by simp)
        · rfl

theorem foldRehydrate_submission (l : List CommentObj) (ex : List Nat) (e : Engine) :
    (l.foldl (fun acc c =>
        if ex.contains (base36_loads c.id) then acc
        else insert_comment_unchecked c acc) e).store.submission
      = e.store.submission := by
  induction l generalizing e with
  | nil => rfl
  | cons c l ih =>
    rw [List.foldl_cons, ih]
    by_cases h : ex.contains (base36_loads c.id) = true
    · rw [if_pos h]
    · rw [if_neg h]
      exact (insert_comment_unchecked_store c e).1

theorem find?_updateHidden (st : Store) (v : Int) (sid : Nat) :
    (updateHidden st v sid).submission.find? (fun r => r.id == sid)
      = (st.submission.find? (fun r => r.id == sid)).map
          (fun r => if r.id == sid then { r with hidden_comments := v } else r) := by
  unfold updateHidden
  dsimp only
  rw [List.find?_map]
  congr 1
  congr 1
  funext r
  by_cases h : r.id = sid <;> simp [h]

theorem updateHidden_comment (st : Store) (v : Int) (sid : Nat) :
    (updateHidden st v sid).comment = st.comment := rfl

/-- C1, amended: when the rehydration branch runs, the stored
hidden-comment count becomes exactly
`num_comments - len(comment_tree.list())`, stored raw — a negative
difference is stored as the negative value, not clamped to zero. -/
theorem hidden_count_raw_difference (submission : SubmissionObj) (e : Engine)
    (row : SubmissionRow) (e2 : Engine)
    (hrow : (insert_submission submission e).store.submission.find?
        (fun r => r.id == base36_loads submission.id) = some row)
    (hlt : ((((insert_submission submission e).store.comment.filter
          (fun r => r.submission == base36_loads submission.id)).length : Int)
        + row.hidden_comments < (submission.num_comments : Int)))
    (hrun : process_submission submission none e = some e2) :
    e2.store.submission.find? (fun r => r.id == base36_loads submission.id)
      = some { row with hidden_comments :=
          (submission.num_comments : Int)
            - ((replaceMoreLoop submission.comments).list.length : Int) } := by
  have hpred := List.find?_some hrow
  simp only [beq_iff_eq] at hpred
  simp only [process_submission] at hrun
  rw [hrow] at hrun
  dsimp only at hrun
  rw [if_pos hlt] at hrun
  injection hrun with h
  subst h
  unfold rehydrate
  dsimp only
  rw [find?_updateHidden, foldRehydrate_submission, hrow]
  simp [hpred]

/-- C1, amended, witness: for `subNeg` (total 1, flattened length 2)
the stored hidden count is `1 - 2 = -1`. -/
theorem hidden_count_raw_difference_witness :
    ∃ row e2,
      ((insert_submission subNeg engine0).store.submission.find?
          (fun r => r.id == base36_loads subNeg.id) = some row)
      ∧ ((((insert_submission subNeg engine0).store.comment.filter
            (fun r => r.submission == base36_loads subNeg.id)).length : Int)
          + row.hidden_comments < (subNeg.num_comments : Int))
      ∧ process_submission subNeg none engine0 = some e2
      ∧ e2.store.submission.find? (fun r => r.id == base36_loads subNeg.id)
          = some { row with hidden_comments :=
              (subNeg.num_comments : Int)
                - ((replaceMoreLoop subNeg.comments).list.length : Int) } := by
  refine ⟨_, _, rfl, by decide, rfl, ?_⟩
  exact hidden_count_raw_difference subNeg engine0 _ _ rfl (by decide) rfl

theorem replaceMoreGo_more_nil (n : Nat) (f : CommentForest) (h : f.more.length ≤ n) :
    (replaceMoreGo n f).more = [] := by
  induction n generalizing f with
  | zero =>
    have : f.more = [] := by
      cases hm : f.more with
      | nil => rfl
      | cons a l => rw [hm] at h; simp at h
    simpa [replaceMoreGo]
  | succ n ih =>
    unfold replaceMoreGo
    by_cases hm : f.more = []
    · rw [if_pos hm]
      exact hm
    · rw [if_neg hm]
      apply ih
      have hpos : 0 < f.more.length := List.length_pos.mpr hm
      simp only [CommentForest.replace_more, List.length_drop]
      omega

theorem replaceMoreLoop_more_nil (f : CommentForest) : (replaceMoreLoop f).more = [] :=
  replaceMoreGo_more_nil f.more.length f le_rfl

theorem foldRehydrate_comment_ids (l : List CommentObj) (ex : List Nat) (e : Engine) :
    (l.foldl (fun acc c =>
        if ex.contains (base36_loads c.id) then acc
        else insert_comment_unchecked c acc) e).store.comment.map (fun r => r.id)
      = e.store.comment.map (fun r => r.id)
        ++ (l.filter (fun c => !ex.contains (base36_loads c.id))).map
             (fun c => base36_loads c.id) := by
  induction l generalizing e with
  | nil => simp
  | cons c l ih =>
    rw [List.foldl_cons]
    by_cases h : ex.contains (base36_loads c.id) = true
    · rw [if_pos h, ih, List.filter_cons_of_neg (by rw [h]; simp)]
    · have hb : ex.contains (base36_loads c.id) = false := by
        cases hx : ex.contains (base36_loads c.id)
        · rfl
        · exact absurd hx h
      rw [if_neg h, ih, (insert_comment_unchecked_store c e).2.2.2.2,
        List.filter_cons_of_pos (by rw [hb]; rfl)]
      simp [commentRowOf]

/-- C5: after the submission upsert, when the stored comment count plus
the stored hidden count reaches the reported total, the Tree
Rehydration Controller does nothing at all (the result is exactly the
upserted state); otherwise it expands the placeholder list to
exhaustion and the run appends exactly the flattened comments whose ids
are not among the already-stored ids for this submission. -/
theorem rehydration_guard (submission : SubmissionObj) (e : Engine) (row : SubmissionRow)
    (hrow : (insert_submission submission e).store.submission.find?
        (fun r => r.id == base36_loads submission.id) = some row) :
    (((((insert_submission submission e).store.comment.filter
          (fun r => r.submission == base36_loads submission.id)).length : Int)
        + row.hidden_comments ≥ (submission.num_comments : Int)) →
      process_submission submission none e = some (insert_submission submission e))
    ∧ (((((insert_submission submission e).store.comment.filter
          (fun r => r.submission == base36_loads submission.id)).length : Int)
        + row.hidden_comments < (submission.num_comments : Int)) →
      (replaceMoreLoop submission.comments).more = []
      ∧ ∃ e2, process_submission submission none e = some e2
          ∧ e2.store.comment.map (fun r => r.id)
            = (insert_submission submission e).store.comment.map (fun r => r.id)
              ++ ((replaceMoreLoop submission.comments).list.filter
                   (fun c => !(((insert_submission submission e).store.comment.filter
                       (fun r => r.submission == base36_loads submission.id)).map
                         (fun r => r.id)).contains (base36_loads c.id))).map
                   (fun c => base36_loads c.id)) := by
  constructor
  · intro hge
    simp only [process_submission]
    rw [hrow]
    dsimp only
    rw [if_neg (by omega)]
  · intro hlt
    refine ⟨replaceMoreLoop_more_nil submission.comments, ?_⟩
    refine ⟨rehydrate submission (base36_loads submission.id) (insert_submission submission e),
      ?_, ?_⟩
    · simp only [process_submission]
      rw [hrow]
      dsimp only
      rw [if_pos hlt]
    · unfold rehydrate
      dsimp only
      rw [updateHidden_comment]
      exact foldRehydrate_comment_ids _ _ _

/-- C5, witness: in the `subC6` scenario the stored-plus-hidden count 1
falls short of the reported total 3, so rehydration runs: the
placeholder list ends empty and exactly the two missing comment ids are
appended, giving rows 14, 15, 16. -/
theorem rehydration_guard_witness :
    ((insert_submission subC6 engC6).store.submission.find?
        (fun r => r.id == base36_loads subC6.id) = some rowA)
    ∧ ((((insert_submission subC6 engC6).store.comment.filter
          (fun r => r.submission == base36_loads subC6.id)).length : Int)
        + rowA.hidden_comments < (subC6.num_comments : Int))
    ∧ (replaceMoreLoop subC6.comments).more = []
    ∧ ∃ e2, process_submission subC6 none engC6 = some e2
        ∧ e2.store.comment.map (fun r => r.id) = [14, 15, 16] := by
  have h := (rehydration_guard subC6 engC6 rowA (by decide)).2 (by decide)
  refine ⟨by decide, by decide, h.1, ?_⟩
  obtain ⟨e2, he2, hids⟩ := h.2
  refine ⟨e2, he2, ?_⟩
  rw [hids]
  decide

theorem get_subreddit_id_fst (s : Subreddit) (e : Engine) :
    (get_subreddit_id s e).1 = base36_loads s.id := by
  unfold get_subreddit_id
  dsimp only
  split_ifs <;> rfl

theorem get_subreddit_id_store_char (s : Subreddit) (e : Engine)
    (h : ∀ i ∈ e.subredditCache, e.store.subredditExists i = true) :
    (get_subreddit_id s e).2.store =
      (if e.store.subredditExists (base36_loads s.id) = true then e.store
       else { e.store with
         subreddit := e.store.subreddit ++ [(base36_loads s.id, s.display_name)] }) := by
  unfold get_subreddit_id
  dsimp only
  by_cases hc : e.subredditCache.contains (base36_loads s.id) = true
  · have hm : base36_loads s.id ∈ e.subredditCache := by simpa using hc
    rw [if_pos hc, if_pos (h _ hm)]
  · rw [if_neg hc]
    by_cases hex : e.store.subredditExists (base36_loads s.id) = true
    · rw [if_pos hex, if_pos hex]
    · rw [if_neg hex, if_neg hex]

theorem get_subreddit_id_cacheInv (s : Subreddit) (e : Engine) (h : cacheInv e) :
    cacheInv (get_subreddit_id s e).2 := by
  obtain ⟨h1, h2⟩ := h
  unfold get_subreddit_id
  dsimp only
  by_cases hc : e.subredditCache.contains (base36_loads s.id) = true
  · rw [if_pos hc]
    exact ⟨h1, h2⟩
  · rw [if_neg hc]
    by_cases hex : e.store.subredditExists (base36_loads s.id) = true
    · rw [if_pos hex]
      refine ⟨?_, h2⟩
      intro i hi
      rcases List.mem_cons.mp hi with rfl | hi
      · exact hex
      · exact h1 i hi
    · rw [if_neg hex]
      constructor
      · intro i hi
        rcases List.mem_cons.mp hi with rfl | hi
        · simp [Store.subredditExists]
        · have := h1 i hi
          simp only [Store.subredditExists, List.any_append] at this ⊢
          simp [this]
      · intro i hi
        exact h2 i hi

theorem get_redditor_id_fst (r : RedditorInput) (e : Engine) :
    (get_redditor_id r e).1 =
      (match r with
        | RedditorInput.present rid _ => some (base36_loads rid)
        | _ => none) := by
  cases r <;> (unfold get_redditor_id; dsimp only)
  case present rid name => split_ifs <;> rfl

theorem get_redditor_id_store_char (r : RedditorInput) (e : Engine)
    (h : ∀ i ∈ e.redditorCache, e.store.redditorExists i = true) :
    (get_redditor_id r e).2.store =
      (match r with
        | RedditorInput.present rid name =>
          if e.store.redditorExists (base36_loads rid) = true then e.store
          else { e.store with redditor := e.store.redditor ++ [(base36_loads rid, name)] }
        | _ => e.store) := by
  cases r <;> (unfold get_redditor_id; dsimp only)
  case present rid name =>
    by_cases hc : e.redditorCache.contains (base36_loads rid) = true
    · have hm : base36_loads rid ∈ e.redditorCache := by simpa using hc
      rw [if_pos hc, if_pos (h _ hm)]
    · rw [if_neg hc]
      by_cases hex : e.store.redditorExists (base36_loads rid) = true
      · rw [if_pos hex, if_pos hex]
      · rw [if_neg hex, if_neg hex]

theorem get_redditor_id_cacheInv (r : RedditorInput) (e : Engine) (h : cacheInv e) :
    cacheInv (get_redditor_id r e).2 := by
  obtain ⟨h1, h2⟩ := h
  cases r <;> (unfold get_redditor_id; dsimp only)
  case present rid name =>
    by_cases hc : e.redditorCache.contains (base36_loads rid) = true
    · rw [if_pos hc]
      exact ⟨h1, h2⟩
    · rw [if_neg hc]
      by_cases hex : e.store.redditorExists (base36_loads rid) = true
      · rw [if_pos hex]
        refine ⟨h1, ?_⟩
        intro i hi
        rcases List.mem_cons.mp hi with rfl | hi
        · exact hex
        · exact h2 i hi
      · rw [if_neg hex]
        constructor
        · intro i hi
          exact h1 i hi
        · intro i hi
          rcases List.mem_cons.mp hi with rfl | hi
          · simp [Store.redditorExists]
          · have := h2 i hi
            simp only [Store.redditorExists, List.any_append] at this ⊢
            simp [this]
  all_goals exact ⟨h1, h2⟩

theorem runResolve_cacheInv (call : ResolveCall) (e : Engine) (h : cacheInv e) :
    cacheInv (runResolve call e).2 := by
  cases call with
  | container s => exact get_subreddit_id_cacheInv s e h
  | author r => exact get_redditor_id_cacheInv r e h

theorem runResolve_det (call : ResolveCall) (e e' : Engine)
    (h : cacheInv e) (h' : cacheInv e') (hst : e.store = e'.store) :
    (runResolve call e).1 = (runResolve call e').1
    ∧ (runResolve call e).2.store = (runResolve call e').2.store := by
  cases call with
  | container s =>
    constructor
    · simp [runResolve, get_subreddit_id_fst]
    · simp only [runResolve]
      rw [get_subreddit_id_store_char s e h.1, get_subreddit_id_store_char s e' h'.1, hst]
  | author r =>
    constructor
    · simp [runResolve, get_redditor_id_fst]
    · simp only [runResolve]
      rw [get_redditor_id_store_char r e h.2, get_redditor_id_store_char r e' h'.2, hst]

theorem runResolves_det (cs : List ResolveCall) (e e' : Engine)
    (h : cacheInv e) (h' : cacheInv e') (hst : e.store = e'.store) :
    (runResolves cs e).1 = (runResolves cs e').1
    ∧ (runResolves cs e).2.store = (runResolves cs e').2.store := by
  induction cs generalizing e e' with
  | nil => exact ⟨rfl, hst⟩
  | cons c cs ih =>
    have hd := runResolve_det c e e' h h' hst
    have hi := ih (runResolve c e).2 (runResolve c e').2
      (runResolve_cacheInv c e h) (runResolve_cacheInv c e' h') hd.2
    simp only [runResolves]
    exact ⟨by rw [hd.1, hi.1], hi.2⟩

/-- C8: the in-process identifier cache is never authoritative — as
long as every cached id has a stored row (which holds in every
reachable state, the caches being populated only on store hits and
inserts), any sequence of reconciler calls returns the same ids and
produces the same final store when run with the caches cleared. -/
theorem cache_not_authoritative (cs : List ResolveCall) (e : Engine) (h : cacheInv e) :
    (runResolves cs e).1 = (runResolves cs (clearCaches e)).1
    ∧ (runResolves cs e).2.store = (runResolves cs (clearCaches e)).2.store :=
  runResolves_det cs e (clearCaches e) h
    (by constructor <;> intro i hi <;> simp [clearCaches] at hi) rfl

/-- C8, witness: a run over a store that already holds subreddit 28 and
redditor 22, with both ids cached, behaves identically after the caches
are cleared. -/
theorem cache_not_authoritative_witness :
    cacheInv ⟨{ emptyStore with subreddit := [(28, strOf "sr")], redditor := [(22, strOf "m")] },
      [28], [22]⟩
    ∧ (let eW : Engine :=
        ⟨{ emptyStore with subreddit := [(28, strOf "sr")], redditor := [(22, strOf "m")] },
          [28], [22]⟩
       let csW : List ResolveCall :=
        [ResolveCall.container srX, ResolveCall.author (RedditorInput.present (strOf "m") (strOf "nm")),
         ResolveCall.container ⟨strOf "z", strOf "zz"⟩]
       (runResolves csW eW).1 = (runResolves csW (clearCaches eW)).1
       ∧ (runResolves csW eW).2.store = (runResolves csW (clearCaches eW)).2.store) :=
  ⟨⟨by decide, by decide⟩,
   cache_not_authoritative _ _ ⟨by decide, by decide⟩⟩

/-- C9, witness: on the fresh engine the cache premise is vacuous; a
present author with id `m` resolves to its decoded id 22. -/
theorem resolve_author_contract_witness :
    (∀ i ∈ engine0.redditorCache, engine0.store.redditorExists i = true)
    ∧ (get_redditor_id (RedditorInput.present (strOf "m") (strOf "nm")) engine0).1
        = some (base36_loads (strOf "m")) :=
  ⟨by simp [engine0], ((resolve_author_contract _ engine0 (by simp [engine0])).2.2 _ _ rfl).1⟩

theorem chainWalk_cons (api : RedditAPI) (st : Store) (fuel : Nat) (c : CommentObj)
    (acc l : List CommentObj) (h : chainWalk api st fuel c acc = some l) :
    ∃ rest, l = acc ++ c :: rest := by
  induction fuel generalizing c acc with
  | zero =>
    unfold chainWalk at h
    dsimp only at h
    by_cases hp : startswith c.parent_id (strOf "t1_") = true
    · rw [if_pos hp] at h
      dsimp only at h
      split at h
      · injection h with h
        exact ⟨[], h.symm⟩
      · exact absurd h (by simp)
    · rw [if_neg hp] at h
      dsimp only at h
      injection h with h
      exact ⟨[], h.symm⟩
  | succ fuel ih =>
    unfold chainWalk at h
    dsimp only at h
    by_cases hp : startswith c.parent_id (strOf "t1_") = true
    · rw [if_pos hp] at h
      dsimp only at h
      split at h
      · injection h with h
        exact ⟨[], h.symm⟩
      · split at h
        · exact absurd h (by simp)
        · rename_i parent hfind
          obtain ⟨rest, hrest⟩ := ih parent (acc ++ [c]) h
          exact ⟨parent :: rest, by simpa using hrest⟩
    · rw [if_neg hp] at h
      dsimp only at h
      injection h with h
      exact ⟨[], h.symm⟩

theorem insert_comment_saved_comment (c : CommentObj) (e : Engine) :
    (insert_comment c e).store.saved_comment = e.store.saved_comment := by
  unfold insert_comment
  split_ifs
  · rfl
  · exact (insert_comment_unchecked_store c e).2.2.2.1

theorem foldInsertComment_saved_comment (l : List CommentObj) (e : Engine) :
    (l.foldl (fun acc c => insert_comment c acc) e).store.saved_comment
      = e.store.saved_comment := by
  induction l generalizing e with
  | nil => rfl
  | cons c l ih => rw [List.foldl_cons, ih, insert_comment_saved_comment]

theorem insert_submission_saved_comment (submission : SubmissionObj) (e : Engine) :
    (insert_submission submission e).store.saved_comment = e.store.saved_comment := by
  unfold insert_submission
  dsimp only
  by_cases h : e.store.submissionExists (base36_loads submission.id) = true
  · rw [if_pos h]
  · rw [if_neg h]
    dsimp only
    rw [(get_redditor_id_store _ _).2.2.2.2, (get_subreddit_id_store _ _).2.2.2.2]

theorem updateHidden_saved_comment (st : Store) (v : Int) (sid : Nat) :
    (updateHidden st v sid).saved_comment = st.saved_comment := rfl

theorem foldRehydrate_saved_comment (l : List CommentObj) (ex : List Nat) (e : Engine) :
    (l.foldl (fun acc c =>
        if ex.contains (base36_loads c.id) then acc
        else insert_comment_unchecked c acc) e).store.saved_comment
      = e.store.saved_comment := by
  induction l generalizing e with
  | nil => rfl
  | cons c l ih =>
    rw [List.foldl_cons, ih]
    by_cases h : ex.contains (base36_loads c.id) = true
    · rw [if_pos h]
    · rw [if_neg h]
      exact (insert_comment_unchecked_store c e).2.2.2.1

theorem rehydrate_saved_comment (submission : SubmissionObj) (sid : Nat) (e : Engine) :
    (rehydrate submission sid e).store.saved_comment = e.store.saved_comment := by
  unfold rehydrate
  dsimp only
  rw [updateHidden_saved_comment, foldRehydrate_saved_comment]

theorem record_saved_submission_saved_comment (owner sid : Nat) (e : Engine) :
    (record_saved_submission owner sid e).store.saved_comment
      = e.store.saved_comment := by
  unfold record_saved_submission
  split_ifs <;> rfl

theorem process_submission_saved_comment (submission : SubmissionObj) (sb : Option Nat)
    (e e1 : Engine) (hrun : process_submission submission sb e = some e1) :
    e1.store.saved_comment = e.store.saved_comment := by
  simp only [process_submission] at hrun
  cases hrow : (insert_submission submission e).store.submission.find?
      (fun r => r.id == base36_loads submission.id) with
  | none => rw [hrow] at hrun; exact absurd hrun (by simp)
  | some row =>
    rw [hrow] at hrun
    dsimp only at hrun
    have hbranch : ∀ b : Engine,
        (if ((((insert_submission submission e).store.comment.filter
              (fun r => r.submission == base36_loads submission.id)).length : Int)
            + row.hidden_comments < (submission.num_comments : Int)) then
          rehydrate submission (base36_loads submission.id) (insert_submission submission e)
        else insert_submission submission e) = b →
        b.store.saved_comment = e.store.saved_comment := by
      intro b hb
      split at hb
      · rw [← hb, rehydrate_saved_comment, insert_submission_saved_comment]
      · rw [← hb, insert_submission_saved_comment]
    cases sb with
    | none =>
      dsimp only at hrun
      injection hrun with h
      exact hbranch e1 h
    | some owner =>
      dsimp only at hrun
      by_cases ho : (owner != 0) = true
      · rw [if_pos ho] at hrun
        injection hrun with h
        rw [← h, record_saved_submission_saved_comment]
        exact hbranch _ rfl
      · rw [if_neg ho] at hrun
        injection hrun with h
        exact hbranch e1 h

theorem record_saved_comment_mem (owner cid : Nat) (e : Engine) (p : Nat × Nat) :
    (p ∈ (record_saved_comment owner cid e).store.saved_comment ↔
      p ∈ e.store.saved_comment ∨ p = (owner, cid)) := by
  unfold record_saved_comment
  by_cases h : e.store.saved_comment.any (fun q => q.1 == owner && q.2 == cid) = true
  · rw [if_pos h]
    constructor
    · exact Or.inl
    · rintro (hp | rfl)
      · exact hp
      · obtain ⟨q, hq, hqe⟩ := List.any_eq_true.mp h
        simp only [Bool.and_eq_true, beq_iff_eq] at hqe
        have : q = (owner, cid) := Prod.ext hqe.1 hqe.2
        rwa [this] at hq
  · rw [if_neg h]
    dsimp only
    rw [List.mem_append]
    simp

theorem replaceMoreGo_resolved_subset (n : Nat) (f : CommentForest) :
    ∀ x ∈ (replaceMoreGo n f).resolved, x ∈ forestComments f := by
  induction n generalizing f with
  | zero =>
    intro x hx
    simp only [replaceMoreGo] at hx
    exact List.mem_append_left _ hx
  | succ n ih =>
    intro x hx
    unfold replaceMoreGo at hx
    by_cases hm : f.more = []
    · rw [if_pos hm] at hx
      exact List.mem_append_left _ hx
    · rw [if_neg hm] at hx
      have hmem := ih _ x hx
      simp only [forestComments, CommentForest.replace_more, List.mem_append] at hmem ⊢
      rcases hmem with (h1 | h2) | h3
      · exact Or.inl h1
      · right
        obtain ⟨s, hs, hxs⟩ := List.mem_flatten.mp h2
        exact List.mem_flatten.mpr ⟨s, List.take_subset _ _ hs, hxs⟩
      · right
        obtain ⟨s, hs, hxs⟩ := List.mem_flatten.mp h3
        exact List.mem_flatten.mpr ⟨s, List.drop_subset _ _ hs, hxs⟩

theorem insert_submission_comment (submission : SubmissionObj) (e : Engine) :
    (insert_submission submission e).store.comment = e.store.comment := by
  unfold insert_submission
  dsimp only
  by_cases h : e.store.submissionExists (base36_loads submission.id) = true
  · rw [if_pos h]
  · rw [if_neg h]
    dsimp only
    rw [(get_redditor_id_store _ _).2.1, (get_subreddit_id_store _ _).2.1]

theorem insert_submission_exists_mono (submission : SubmissionObj) (e : Engine) (i : Nat)
    (h : e.store.submissionExists i = true) :
    (insert_submission submission e).store.submissionExists i = true := by
  unfold insert_submission
  dsimp only
  by_cases hex : e.store.submissionExists (base36_loads submission.id) = true
  · rw [if_pos hex]
    exact h
  · rw [if_neg hex]
    simp only [Store.submissionExists] at h ⊢
    rw [(get_redditor_id_store _ _).1, (get_subreddit_id_store _ _).1, List.any_append]
    simp [h]

theorem insert_submission_exists_self (submission : SubmissionObj) (e : Engine) :
    (insert_submission submission e).store.submissionExists (base36_loads submission.id)
      = true := by
  unfold insert_submission
  dsimp only
  by_cases hex : e.store.submissionExists (base36_loads submission.id) = true
  · rw [if_pos hex]
    exact hex
  · rw [if_neg hex]
    simp only [Store.submissionExists]
    rw [List.any_append]
    simp

theorem updateHidden_submissionExists (st : Store) (v : Int) (sid i : Nat) :
    (updateHidden st v sid).submissionExists i = st.submissionExists i := by
  unfold updateHidden Store.submissionExists
  dsimp only
  rw [List.any_map]
  congr 1
  funext r
  by_cases h : r.id = sid <;> simp [h]

theorem noOrphan_of_tables_eq (st st2 : Store)
    (hc : st2.comment = st.comment) (hs : st2.submission = st.submission)
    (hno : noOrphanComments st) : noOrphanComments st2 := by
  intro r hr
  rw [hc] at hr
  unfold Store.submissionExists
  rw [hs]
  exact hno r hr

theorem record_saved_submission_tables (owner sid : Nat) (e : Engine) :
    (record_saved_submission owner sid e).store.comment = e.store.comment
    ∧ (record_saved_submission owner sid e).store.submission = e.store.submission := by
  unfold record_saved_submission
  split_ifs <;> exact ⟨rfl, rfl⟩

theorem record_saved_comment_tables (owner cid : Nat) (e : Engine) :
    (record_saved_comment owner cid e).store.comment = e.store.comment
    ∧ (record_saved_comment owner cid e).store.submission = e.store.submission := by
  unfold record_saved_comment
  split_ifs <;> exact ⟨rfl, rfl⟩

theorem insert_submission_noOrphan (submission : SubmissionObj) (e : Engine)
    (h : noOrphanComments e.store) :
    noOrphanComments (insert_submission submission e).store := by
  intro r hr
  rw [insert_submission_comment] at hr
  exact insert_submission_exists_mono submission e _ (h r hr)

theorem insert_comment_unchecked_noOrphan (c : CommentObj) (e : Engine) (sid : Nat)
    (hno : noOrphanComments e.store)
    (hex : e.store.submissionExists sid = true)
    (hc : base36_loads c.submission_id = sid) :
    noOrphanComments (insert_comment_unchecked c e).store
    ∧ (insert_comment_unchecked c e).store.submissionExists sid = true := by
  have hsub := (insert_comment_unchecked_store c e).1
  have hcom := (insert_comment_unchecked_store c e).2.2.2.2
  have hexiff : ∀ i, (insert_comment_unchecked c e).store.submissionExists i
      = e.store.submissionExists i := by
    intro i
    unfold Store.submissionExists
    rw [hsub]
  constructor
  · intro r hr
    rw [hcom] at hr
    rw [hexiff]
    rcases List.mem_append.mp hr with h1 | h1
    · exact hno r h1
    · simp only [List.mem_singleton] at h1
      subst h1
      have hfield : (commentRowOf c (get_redditor_id c.author e).1).submission = sid := by
        simp [commentRowOf, hc]
      rw [hfield]
      exact hex
  · rw [hexiff]
    exact hex

theorem foldRehydrate_noOrphan (l : List CommentObj) (ex : List Nat) (e : Engine) (sid : Nat)
    (hno : noOrphanComments e.store)
    (hex : e.store.submissionExists sid = true)
    (hl : ∀ cc ∈ l, base36_loads cc.submission_id = sid) :
    noOrphanComments (l.foldl (fun acc c =>
        if ex.contains (base36_loads c.id) then acc
        else insert_comment_unchecked c acc) e).store
    ∧ (l.foldl (fun acc c =>
        if ex.contains (base36_loads c.id) then acc
        else insert_comment_unchecked c acc) e).store.submissionExists sid = true := by
  induction l generalizing e with
  | nil => exact ⟨hno, hex⟩
  | cons c l ih =>
    rw [List.foldl_cons]
    by_cases h : ex.contains (base36_loads c.id) = true
    · rw [if_pos h]
      exact ih e hno hex (fun cc hcc => hl cc (List.mem_cons_of_mem _ hcc))
    · rw [if_neg h]
      have hstep := insert_comment_unchecked_noOrphan c e sid hno hex (hl c (List.mem_cons_self c l))
      exact ih _ hstep.1 hstep.2 (fun cc hcc => hl cc (List.mem_cons_of_mem _ hcc))

theorem insert_comment_noOrphan (c : CommentObj) (e : Engine) (sid : Nat)
    (hno : noOrphanComments e.store)
    (hex : e.store.submissionExists sid = true)
    (hc : base36_loads c.submission_id = sid) :
    noOrphanComments (insert_comment c e).store
    ∧ (insert_comment c e).store.submissionExists sid = true := by
  unfold insert_comment
  by_cases h : e.store.commentExists (base36_loads c.id) = true
  · rw [if_pos h]
    exact ⟨hno, hex⟩
  · rw [if_neg h]
    exact insert_comment_unchecked_noOrphan c e sid hno hex hc

theorem foldInsertComment_noOrphan (l : List CommentObj) (e : Engine) (sid : Nat)
    (hno : noOrphanComments e.store)
    (hex : e.store.submissionExists sid = true)
    (hl : ∀ cc ∈ l, base36_loads cc.submission_id = sid) :
    noOrphanComments (l.foldl (fun acc c => insert_comment c acc) e).store
    ∧ (l.foldl (fun acc c => insert_comment c acc) e).store.submissionExists sid = true := by
  induction l generalizing e with
  | nil => exact ⟨hno, hex⟩
  | cons c l ih =>
    rw [List.foldl_cons]
    have hstep := insert_comment_noOrphan c e sid hno hex (hl c (List.mem_cons_self c l))
    exact ih _ hstep.1 hstep.2 (fun cc hcc => hl cc (List.mem_cons_of_mem _ hcc))

theorem updateHidden_noOrphan (st : Store) (v : Int) (sid : Nat)
    (hno : noOrphanComments st) : noOrphanComments (updateHidden st v sid) := by
  intro r hr
  rw [updateHidden_comment] at hr
  rw [updateHidden_submissionExists]
  exact hno r hr

theorem rehydrate_noOrphan (submission : SubmissionObj) (e : Engine)
    (hno : noOrphanComments e.store)
    (hex : e.store.submissionExists (base36_loads submission.id) = true)
    (hforest : ∀ cc ∈ forestComments submission.comments,
        base36_loads cc.submission_id = base36_loads submission.id) :
    noOrphanComments (rehydrate submission (base36_loads submission.id) e).store
    ∧ (rehydrate submission (base36_loads submission.id) e).store.submissionExists
        (base36_loads submission.id) = true := by
  unfold rehydrate
  dsimp only
  have hl : ∀ cc ∈ (replaceMoreLoop submission.comments).list,
      base36_loads cc.submission_id = base36_loads submission.id := by
    intro cc hcc
    exact hforest cc (replaceMoreGo_resolved_subset _ _ cc hcc)
  have hf := foldRehydrate_noOrphan (replaceMoreLoop submission.comments).list
    ((e.store.comment.filter (fun r => r.submission == base36_loads submission.id)).map
      (fun r => r.id))
    e (base36_loads submission.id) hno hex hl
  constructor
  · exact updateHidden_noOrphan _ _ _ hf.1
  · rw [updateHidden_submissionExists]
    exact hf.2

theorem process_submission_noOrphan (submission : SubmissionObj) (sb : Option Nat)
    (e e1 : Engine)
    (hno : noOrphanComments e.store)
    (hforest : ∀ cc ∈ forestComments submission.comments,
        base36_loads cc.submission_id = base36_loads submission.id)
    (hrun : process_submission submission sb e = some e1) :
    noOrphanComments e1.store
    ∧ e1.store.submissionExists (base36_loads submission.id) = true := by
  simp only [process_submission] at hrun
  cases hrow : (insert_submission submission e).store.submission.find?
      (fun r => r.id == base36_loads submission.id) with
  | none => rw [hrow] at hrun; exact absurd hrun (by simp)
  | some row =>
    rw [hrow] at hrun
    dsimp only at hrun
    have hbase : noOrphanComments (insert_submission submission e).store :=
      insert_submission_noOrphan submission e hno
    have hbex := insert_submission_exists_self submission e
    have hbranch : ∀ b : Engine,
        (if ((((insert_submission submission e).store.comment.filter
              (fun r => r.submission == base36_loads submission.id)).length : Int)
            + row.hidden_comments < (submission.num_comments : Int)) then
          rehydrate submission (base36_loads submission.id) (insert_submission submission e)
        else insert_submission submission e) = b →
        noOrphanComments b.store
        ∧ b.store.submissionExists (base36_loads submission.id) = true := by
      intro b hb
      split at hb
      · rw [← hb]
        exact rehydrate_noOrphan submission (insert_submission submission e) hbase hbex hforest
      · rw [← hb]
        exact ⟨hbase, hbex⟩
    cases sb with
    | none =>
      dsimp only at hrun
      injection hrun with h
      exact hbranch e1 h
    | some owner =>
      dsimp only at hrun
      by_cases ho : (owner != 0) = true
      · rw [if_pos ho] at hrun
        injection hrun with h
        have hb := hbranch _ rfl
        rw [← h]
        constructor
        · exact noOrphan_of_tables_eq _ _ (record_saved_submission_tables _ _ _).1
            (record_saved_submission_tables _ _ _).2 hb.1
        · unfold Store.submissionExists
          rw [(record_saved_submission_tables _ _ _).2]
          exact hb.2
      · rw [if_neg ho] at hrun
        injection hrun with h
        exact hbranch e1 h

theorem chainWalk_thread (api : RedditAPI) (st : Store) (fuel : Nat) (c : CommentObj)
    (acc l : List CommentObj) (S : Nat)
    (hpar : ∀ kv ∈ api.comments, base36_loads kv.2.submission_id = S)
    (hc : base36_loads c.submission_id = S)
    (h : chainWalk api st fuel c acc = some l) :
    ∀ x ∈ l, x ∈ acc ∨ base36_loads x.submission_id = S := by
  induction fuel generalizing c acc with
  | zero =>
    unfold chainWalk at h
    dsimp only at h
    by_cases hp : startswith c.parent_id (strOf "t1_") = true
    · rw [if_pos hp] at h
      dsimp only at h
      split at h
      · injection h with h
        subst h
        intro x hx
        rcases List.mem_append.mp hx with hx | hx
        · exact Or.inl hx
        · simp only [List.mem_singleton] at hx
          subst hx
          exact Or.inr hc
      · exact absurd h (by simp)
    · rw [if_neg hp] at h
      dsimp only at h
      injection h with h
      subst h
      intro x hx
      rcases List.mem_append.mp hx with hx | hx
      · exact Or.inl hx
      · simp only [List.mem_singleton] at hx
        subst hx
        exact Or.inr hc
  | succ fuel ih =>
    unfold chainWalk at h
    dsimp only at h
    by_cases hp : startswith c.parent_id (strOf "t1_") = true
    · rw [if_pos hp] at h
      dsimp only at h
      split at h
      · injection h with h
        subst h
        intro x hx
        rcases List.mem_append.mp hx with hx | hx
        · exact Or.inl hx
        · simp only [List.mem_singleton] at hx
          subst hx
          exact Or.inr hc
      · split at h
        · exact absurd h (by simp)
        · rename_i parent hfind
          have hps : base36_loads parent.submission_id = S := by
            unfold RedditAPI.findComment at hfind
            cases hf : api.comments.find? (fun kv => kv.1 == c.parent_id.drop 3) with
            | none => rw [hf] at hfind; exact absurd hfind (by simp)
            | some kv =>
              rw [hf] at hfind
              simp only [Option.map_some'] at hfind
              injection hfind with hkv
              rw [← hkv]
              exact hpar kv (List.mem_of_find?_eq_some hf)
          intro x hx
          rcases ih parent (acc ++ [c]) hps h x hx with hmem | hS
          · rcases List.mem_append.mp hmem with h1 | h1
            · exact Or.inl h1
            · simp only [List.mem_singleton] at h1
              subst h1
              exact Or.inr hc
          · exact Or.inr hS
    · rw [if_neg hp] at h
      dsimp only at h
      injection h with h
      subst h
      intro x hx
      rcases List.mem_append.mp hx with hx | hx
      · exact Or.inl hx
      · simp only [List.mem_singleton] at hx
        subst hx
        exact Or.inr hc

/-- C2, amended: the comment upsert `insert_comment` itself performs no
post persistence (see the counterexample); instead `process_comment`
archives the comment's post before any comment insert.  Under
thread-consistent API data (every object reachable during the call
names the same submission it belongs to), every run of
`process_comment` preserves the invariant that no comment row exists
without its submission row. -/
theorem comment_rows_have_post_rows (api : RedditAPI) (fuel : Nat) (c : CommentObj)
    (sb : Option Nat) (e e2 : Engine)
    (hno : noOrphanComments e.store)
    (hsub : ∀ kv ∈ api.submissions, base36_loads kv.2.id = base36_loads kv.1
        ∧ ∀ cc ∈ forestComments kv.2.comments,
            base36_loads cc.submission_id = base36_loads kv.2.id)
    (hpar : ∀ kv ∈ api.comments,
        base36_loads kv.2.submission_id = base36_loads c.submission_id)
    (hrun : process_comment api fuel c sb e = some e2) :
    noOrphanComments e2.store := by
  simp only [process_comment] at hrun
  cases hfs : api.findSubmission c.submission_id with
  | none => rw [hfs] at hrun; exact absurd hrun (by simp)
  | some submission =>
    rw [hfs] at hrun
    dsimp only at hrun
    have hsubfact : base36_loads submission.id = base36_loads c.submission_id
        ∧ ∀ cc ∈ forestComments submission.comments,
            base36_loads cc.submission_id = base36_loads submission.id := by
      unfold RedditAPI.findSubmission at hfs
      cases hf : api.submissions.find? (fun p => p.1 == c.submission_id) with
      | none => rw [hf] at hfs; exact absurd hfs (by simp)
      | some kv =>
        rw [hf] at hfs
        simp only [Option.map_some'] at hfs
        injection hfs with hkv
        have hkey := List.find?_some hf
        simp only [beq_iff_eq] at hkey
        have h := hsub kv (List.mem_of_find?_eq_some hf)
        rw [hkv, hkey] at h
        exact h
    cases hps : process_submission submission none e with
    | none => rw [hps] at hrun; exact absurd hrun (by simp)
    | some e1 =>
      rw [hps] at hrun
      dsimp only at hrun
      have hps1 := process_submission_noOrphan submission none e e1 hno hsubfact.2 hps
      cases hcw : chainWalk api e1.store fuel c [] with
      | none => rw [hcw] at hrun; exact absurd hrun (by simp)
      | some chain =>
        rw [hcw] at hrun
        dsimp only at hrun
        have hth := chainWalk_thread api e1.store fuel c [] chain
          (base36_loads c.submission_id) hpar rfl hcw
        have hchain : ∀ x ∈ chain.reverse,
            base36_loads x.submission_id = base36_loads submission.id := by
          intro x hx
          rcases hth x (List.mem_reverse.mp hx) with hmem | hS
          · simp at hmem
          · rw [hsubfact.1]
            exact hS
        have hfold := foldInsertComment_noOrphan chain.reverse e1
          (base36_loads submission.id) hps1.1 hps1.2 hchain
        cases sb with
        | none =>
          injection hrun with h
          rw [← h]
          exact hfold.1
        | some owner =>
          dsimp only at hrun
          by_cases ho : (owner != 0) = true
          · rw [if_pos ho] at hrun
            injection hrun with h
            rw [← h]
            exact noOrphan_of_tables_eq _ _ (record_saved_comment_tables _ _ _).1
              (record_saved_comment_tables _ _ _).2 hfold.1
          · rw [if_neg ho] at hrun
            injection hrun with h
            rw [← h]
            exact hfold.1

/-- C2, amended, witness: running `process_comment` on the backfill
scenario from an orphan-free store yields an orphan-free store. -/
theorem comment_rows_have_post_rows_witness :
    noOrphanComments engC4.store
    ∧ ∃ e2, process_comment apiC4 10 k5 none engC4 = some e2
        ∧ noOrphanComments e2.store := by
  refine ⟨by unfold noOrphanComments; decide, ?_⟩
  obtain ⟨e2, he2⟩ := Option.isSome_iff_exists.mp
    (show (process_comment apiC4 10 k5 none engC4).isSome = true by decide)
  exact ⟨e2, he2,
    comment_rows_have_post_rows apiC4 10 k5 none engC4 e2 (by unfold noOrphanComments; decide)
      (by unfold forestComments; decide) (by decide) he2⟩

/-- C10: when `process_comment` records a saved-comment association,
the association rows after the call are exactly the rows before plus
(at most) the pair targeting the id of the originally discovered
comment — never the id of an ancestor fetched during the chain walk,
even though the Python loop variable is reassigned to ancestors before
the association is written. -/
theorem saved_comment_targets_discovered (api : RedditAPI) (fuel : Nat) (c : CommentObj)
    (owner : Nat) (e e2 : Engine) (howner : owner ≠ 0)
    (hrun : process_comment api fuel c (some owner) e = some e2) :
    ∀ p, p ∈ e2.store.saved_comment ↔
      p ∈ e.store.saved_comment ∨ p = (owner, base36_loads c.id) := by
  intro p
  simp only [process_comment] at hrun
  cases hfs : api.findSubmission c.submission_id with
  | none => rw [hfs] at hrun; exact absurd hrun (by simp)
  | some submission =>
    rw [hfs] at hrun
    dsimp only at hrun
    cases hps : process_submission submission none e with
    | none => rw [hps] at hrun; exact absurd hrun (by simp)
    | some e1 =>
      rw [hps] at hrun
      dsimp only at hrun
      cases hcw : chainWalk api e1.store fuel c [] with
      | none => rw [hcw] at hrun; exact absurd hrun (by simp)
      | some chain =>
        rw [hcw] at hrun
        dsimp only at hrun
        rw [if_pos (by simpa using howner)] at hrun
        injection hrun with h
        obtain ⟨rest, hrest⟩ := chainWalk_cons api e1.store fuel c [] chain hcw
        have hlast : chain.reverse.getLastD c = c := by
          rw [hrest]
          simp
        rw [hlast] at h
        have hsaved : (chain.reverse.foldl (fun acc cc => insert_comment cc acc) e1).store.saved_comment
            = e.store.saved_comment := by
          rw [foldInsertComment_saved_comment, process_submission_saved_comment submission none e e1 hps]
        rw [← h, record_saved_comment_mem, hsaved]

/-- C10, witness: in the backfill scenario saved by owner 7, the
resulting association list relates exactly the pair
`(7, 21)` — 21 decodes the discovered comment `l`, not any of its
fetched ancestors (17, 18, 19, 20). -/
theorem saved_comment_targets_discovered_witness :
    (7 : Nat) ≠ 0
    ∧ ∃ e2, process_comment apiC4 10 k5 (some 7) engC4 = some e2
        ∧ (∀ p, p ∈ e2.store.saved_comment ↔
            p ∈ engC4.store.saved_comment ∨ p = (7, base36_loads k5.id))
        ∧ base36_loads k5.id = 21 ∧ base36_loads k4.id = 20 := by
  refine ⟨by decide, ?_⟩
  obtain ⟨e2, he2⟩ := Option.isSome_iff_exists.mp
    (show (process_comment apiC4 10 k5 (some 7) engC4).isSome = true by decide)
  exact ⟨e2, he2,
    saved_comment_targets_discovered apiC4 10 k5 7 engC4 e2 (by decide) he2,
    by decide, by decide⟩

end RedditArchiver
